import Mathlib

/-!
Shallow embedding of `Tribler/Core/Modules/MetadataStore/store.py`:
the persistent logical clock (`DiscreteClock`), the payload reconciliation
engine (`process_payload`, `update_channel_info`), the blob decoding loop
(`process_squashed_mdblob`) and the channel directory replay driver
(`process_channel_dir`).

The Pony-ORM backed record store is modelled as a list of rows with stable
row identifiers (`Db`).  Pony `get`/`exists`/`delete`/attribute updates are
modelled as first-match lookup, any-match test, removal by row id and
in-place field update.  Binary strings (public keys, signatures) are
modelled as `String`; logical-clock timestamps and ids as `Nat`.
-/

/-- Metadata kind discriminator.  The source imports the integer constants
`REGULAR_TORRENT`, `CHANNEL_TORRENT` and `DELETED` from the serialization
module (not part of the sources at hand); they are modelled as an enumeration,
with `OTHER` standing for any further metadata type, which `process_payload`
lets fall through to its final `return None, NO_ACTION`. -/
inductive MetadataType where
  | REGULAR_TORRENT
  | CHANNEL_TORRENT
  | DELETED
  | OTHER
deriving DecidableEq, Repr

/-- Outcome code `UNKNOWN_CHANNEL = 1` from the source. -/
def UNKNOWN_CHANNEL : Nat := 1
/-- Outcome code `UPDATED_OUR_VERSION = 2` from the source. -/
def UPDATED_OUR_VERSION : Nat := 2
/-- Outcome code `GOT_SAME_VERSION = 3` from the source. -/
def GOT_SAME_VERSION : Nat := 3
/-- Outcome code `GOT_NEWER_VERSION = 4` from the source. -/
def GOT_NEWER_VERSION : Nat := 4
/-- Outcome code `UNKNOWN_TORRENT = 5` from the source. -/
def UNKNOWN_TORRENT : Nat := 5
/-- Outcome code `NO_ACTION = 6` from the source. -/
def NO_ACTION : Nat := 6
/-- Outcome code `DELETED_METADATA = 7` from the source. -/
def DELETED_METADATA : Nat := 7

/-- A decoded metadata payload, as produced by `read_payload_with_offset`.
Fields are the ones `process_payload` / `update_channel_info` read:
`metadata_type`, `public_key`, `id_`, `origin_id`, `timestamp`, `signature`,
`delete_signature` (only meaningful for tombstones).  `title` stands for the
descriptive content carried by a payload, and `start_timestamp` for the
channel-creation-time lower window bound carried by channel payloads
(spec section 3: fixed at channel creation). -/
structure Payload where
  metadata_type : MetadataType
  public_key : String
  id_ : Nat
  origin_id : Nat
  timestamp : Nat
  signature : String
  delete_signature : String
  title : String
  start_timestamp : Nat
deriving DecidableEq, Repr

/-- One stored `ChannelNode`-family record.  Channel-specific columns
(`start_timestamp`, `local_version`) are `0` on non-channel rows. -/
structure Entry where
  metadata_type : MetadataType
  public_key : String
  id_ : Nat
  origin_id : Nat
  timestamp : Nat
  signature : String
  title : String
  start_timestamp : Nat
  local_version : Nat
deriving DecidableEq, Repr

/-- A database row: a stable row identifier plus the record fields.  Pony
entity objects keep their identity across field updates; `rowid` models
that identity. -/
structure Row where
  rowid : Nat
  entry : Entry
deriving DecidableEq, Repr

/-- The ChannelNode table of the store, with the next fresh row id. -/
structure Db where
  rows : List Row
  nextRowid : Nat
deriving DecidableEq, Repr

/-- `ChannelNode.exists(signature=sig)`. -/
def Db.existsSig (db : Db) (sig : String) : Bool :=
  db.rows.any fun r => r.entry.signature = sig

/-- `ChannelNode.get(signature=sig, public_key=pk)` (first match). -/
def Db.getBySigPk (db : Db) (sig pk : String) : Option Row :=
  db.rows.find? fun r => r.entry.signature = sig ∧ r.entry.public_key = pk

/-- `ChannelMetadata.get(public_key=pk, id_=i)`: Pony restricts the subclass
query to channel-typed rows (first match). -/
def Db.getChannelByPkId (db : Db) (pk : String) (i : Nat) : Option Row :=
  db.rows.find? fun r =>
    r.entry.metadata_type = MetadataType.CHANNEL_TORRENT ∧
      r.entry.public_key = pk ∧ r.entry.id_ = i

/-- Modelled from the spec: `ChannelMetadata.get_channel_with_id(pk)` lives in
the (absent) `channel_metadata` ORM-binding module; spec section 4.4 describes
it as the lookup of the existing channel descriptor for a public key. -/
def Db.get_channel_with_id (db : Db) (pk : String) : Option Row :=
  db.rows.find? fun r =>
    r.entry.metadata_type = MetadataType.CHANNEL_TORRENT ∧ r.entry.public_key = pk

/-- `entity.delete()`: remove the row with the given identity. -/
def Db.deleteRow (db : Db) (rid : Nat) : Db :=
  { db with rows := db.rows.filter fun r => r.rowid ≠ rid }

/-- Pony in-place field update of the entity with identity `rid`. -/
def Db.updateRow (db : Db) (rid : Nat) (e : Entry) : Db :=
  { db with rows := db.rows.map fun r => if r.rowid = rid then { r with entry := e } else r }

/-- Creation of a new entity (`from_payload` constructors end in an INSERT). -/
def Db.insert (db : Db) (e : Entry) : Db :=
  { rows := db.rows ++ [⟨db.nextRowid, e⟩], nextRowid := db.nextRowid + 1 }

/-- Does a row with this identity exist (a deleted Pony entity raises on
attribute assignment; this test models that liveness check)? -/
def Db.hasRowid (db : Db) (rid : Nat) : Bool :=
  db.rows.any fun r => r.rowid = rid

/-- `channel.local_version = n`: in-place assignment of one attribute of the
live entity with identity `rid`, the other attributes keeping their current
values. -/
def Db.setLocalVersion (db : Db) (rid : Nat) (n : Nat) : Db :=
  { db with
    rows := db.rows.map fun r =>
      if r.rowid = rid then { r with entry := { r.entry with local_version := n } } else r }

/-- Modelled from the spec: `TorrentMetadata.from_payload` lives in the
(absent) `torrent_metadata` ORM-binding module; spec sections 3 and 4.3
describe it as creating a torrent record carrying the payload's fields.
Channel-only columns are `0` on torrent rows. -/
def TorrentMetadata_from_payload (p : Payload) : Entry :=
  { metadata_type := p.metadata_type
    public_key := p.public_key
    id_ := p.id_
    origin_id := p.origin_id
    timestamp := p.timestamp
    signature := p.signature
    title := p.title
    start_timestamp := 0
    local_version := 0 }

/-- Modelled from the spec: `ChannelMetadata.from_payload` lives in the
(absent) `channel_metadata` ORM-binding module; spec sections 3 and 4.4
describe it as creating a channel descriptor from the payload, with
`start_timestamp` fixed at creation and `local_version = 0` (preview state,
no committed cursor yet). -/
def ChannelMetadata_from_payload (p : Payload) : Entry :=
  { metadata_type := p.metadata_type
    public_key := p.public_key
    id_ := p.id_
    origin_id := p.origin_id
    timestamp := p.timestamp
    signature := p.signature
    title := p.title
    start_timestamp := p.start_timestamp
    local_version := 0 }

/-- Modelled from the spec: `channel.set(**ChannelMetadataPayload.to_dict(payload))`
overwrites the descriptor with the payload's contents (spec section 4.4,
full replace).  The payload carries no `local_version` (a purely local
cursor), and `start_timestamp` is fixed at channel creation (spec section 3),
so those two columns are untouched by the update. -/
def applyChannelPayload (e : Entry) (p : Payload) : Entry :=
  { e with
    metadata_type := p.metadata_type
    id_ := p.id_
    origin_id := p.origin_id
    timestamp := p.timestamp
    signature := p.signature
    title := p.title }

/-- `MetadataStore.update_channel_info` (source lines 248-277): three-way
timestamp comparison against the locally held channel record for the
payload's public key; returns the channel entity and the status code. -/
def update_channel_info (db : Db) (p : Payload) : Db × Entry × Nat :=
  match db.get_channel_with_id p.public_key with
  | some channel =>
    if p.timestamp > channel.entry.timestamp then
      let e := applyChannelPayload channel.entry p
      (db.updateRow channel.rowid e, e, UPDATED_OUR_VERSION)
    else if p.timestamp = channel.entry.timestamp then
      (db, channel.entry, GOT_SAME_VERSION)
    else
      (db, channel.entry, GOT_NEWER_VERSION)
  | none =>
    let e := ChannelMetadata_from_payload p
    (db.insert e, e, UNKNOWN_CHANNEL)

/-- The version-gating test of `process_payload` (source line 238):
`channel and (channel.local_version != 0) and payload.timestamp <= channel.local_version`. -/
def gatedByChannelVersion (db : Db) (p : Payload) : Bool :=
  match db.getChannelByPkId p.public_key p.origin_id with
  | some channel =>
    channel.entry.local_version ≠ 0 ∧ p.timestamp ≤ channel.entry.local_version
  | none => false

/-- The kind-dispatch tail of `process_payload` (source lines 241-246):
create a torrent record, delegate to `update_channel_info`, or fall through
to `NO_ACTION`. -/
def kindDispatch (db : Db) (p : Payload) : Db × Option Entry × Nat :=
  if p.metadata_type = MetadataType.REGULAR_TORRENT then
    let e := TorrentMetadata_from_payload p
    (db.insert e, some e, UNKNOWN_TORRENT)
  else if p.metadata_type = MetadataType.CHANNEL_TORRENT then
    let r := update_channel_info db p
    (r.1, some r.2.1, r.2.2)
  else
    (db, none, NO_ACTION)

/-- `MetadataStore.process_payload` (source lines 217-246). -/
def process_payload (db : Db) (p : Payload) : Db × Option Entry × Nat :=
  if db.existsSig p.signature then
    (db, none, GOT_SAME_VERSION)
  else if p.metadata_type = MetadataType.DELETED then
    match db.getBySigPk p.delete_signature p.public_key with
    | some existing_metadata => (db.deleteRow existing_metadata.rowid, none, DELETED_METADATA)
    | none => (db, none, NO_ACTION)
  else if gatedByChannelVersion db p then
    (db, none, NO_ACTION)
  else
    kindDispatch db p

/-- One self-delimiting record slot inside a blob, as consumed by the
`read_payload_with_offset` loop of `process_squashed_mdblob`: either a record
that decodes (and signature-verifies) to a payload, or a record on which the
payload codec raises `InvalidSignatureException` (spec sections 4.2 and 7). -/
inductive BlobRecord where
  | record (p : Payload)
  | badSig
deriving DecidableEq, Repr

/-- `MetadataStore.process_squashed_mdblob` (source lines 207-214): decode one
record at a time and feed it through `process_payload`; a record failing
signature verification raises, aborting the remainder of the blob.  The
returned flag is `true` when `InvalidSignatureException` was raised; the store
then keeps the effects of the records processed before the failing one,
because all the nested `db_session`s of this call stack are re-entrant no-ops
and the exception is caught inside the outermost per-file session. -/
def process_squashed_mdblob (db : Db) (blob : List BlobRecord) : Db × Bool :=
  match blob with
  | [] => (db, false)
  | BlobRecord.badSig :: _ => (db, true)
  | BlobRecord.record p :: rest => process_squashed_mdblob (process_payload db p).1 rest

/-- `BLOB_EXTENSION` is imported from the (absent) `channel_metadata`
ORM-binding module.  Modelled from the spec: blob files are named
`<sequence-number>.mdblob` (spec sections 4.5 and 8). -/
def BLOB_EXTENSION : String := ".mdblob"

/-- Result of the filename classification of `process_channel_dir` (source
lines 164-168): not a blob file at all, a blob file whose sequence-number
prefix does not parse as an integer (Python `int()` raises `ValueError`,
which nothing in the driver catches), or a parsed sequence number. -/
inductive SeqParse where
  | notBlob
  | badInt
  | seq (n : Nat)
deriving DecidableEq, Repr

/-- Python `str.endswith` on code points (suffix test on character lists). -/
def listEndsWith (l suff : List Char) : Bool :=
  if suff.length ≤ l.length then l.drop (l.length - suff.length) == suff else false

/-- Python `s.endswith(suff)`. -/
def pyEndsWith (s suff : String) : Bool :=
  listEndsWith s.data suff.data

/-- Python slicing `s[:-n]`: drop the last `n` characters. -/
def pyDropRight (s : String) (n : Nat) : String :=
  String.mk (s.data.take (s.data.length - n))

/-- The value of a decimal digit character, if it is one. -/
def charDigit? (c : Char) : Option Nat :=
  if '0' ≤ c ∧ c ≤ '9' then some (c.toNat - '0'.toNat) else none

/-- Accumulate decimal digits; `none` as soon as a non-digit appears. -/
def digitsToNat : List Char → Nat → Option Nat
  | [], acc => some acc
  | c :: cs, acc =>
    match charDigit? c with
    | some d => digitsToNat cs (acc * 10 + d)
    | none => none

/-- Python `int(s)` on a plain non-negative decimal numeral: `none` models the
`ValueError` raised on an empty string or a non-digit character (surrounding
whitespace and an explicit sign, which Python would also accept, do not occur
in blob filenames and are not modelled). -/
def pyIntParse (s : String) : Option Nat :=
  match s.data with
  | [] => none
  | _ :: _ => digitsToNat s.data 0

/-- The filename classification of `process_channel_dir` (source lines
164-168): `blob_sequence_number = int(filename[:-len(ext)])` when the name
ends in `BLOB_EXTENSION` or in `BLOB_EXTENSION + '.lz4'`, `None` otherwise. -/
def blobSeqNumber (filename : String) : SeqParse :=
  if pyEndsWith filename BLOB_EXTENSION then
    match pyIntParse (pyDropRight filename BLOB_EXTENSION.length) with
    | some n => SeqParse.seq n
    | none => SeqParse.badInt
  else if pyEndsWith filename (BLOB_EXTENSION ++ ".lz4") then
    match pyIntParse (pyDropRight filename (BLOB_EXTENSION ++ ".lz4").length) with
    | some n => SeqParse.seq n
    | none => SeqParse.badInt
  else
    SeqParse.notBlob

/-- Code-point comparison of two character lists, as Python compares strings. -/
def charListLe : List Char → List Char → Bool
  | [], _ => true
  | _ :: _, [] => false
  | a :: as, b :: bs => if a < b then true else if b < a then false else charListLe as bs

/-- Python string `<=`: lexicographic on code points. -/
def pyStrLe (a b : String) : Bool :=
  charListLe a.data b.data

/-- Insert a string into a list sorted by `pyStrLe`. -/
def pyInsert (x : String) : List String → List String
  | [] => [x]
  | y :: ys => if pyStrLe x y then x :: y :: ys else y :: pyInsert x ys

/-- Python `sorted` on a list of strings (insertion sort; Python's sort is
stable and orders strings lexicographically by code point). -/
def pySorted : List String → List String
  | [] => []
  | x :: xs => pyInsert x (pySorted xs)

/-- Errors that escape `process_channel_dir` uncaught (only
`InvalidSignatureException` is caught there): the channel descriptor for
`channel_id` is absent where an attribute of it is read, the `int()` call on
a blob filename prefix raises, or the Pony entity held for the channel was
deleted before `channel.local_version` is assigned.  When such an error is
raised inside a per-file `db_session`, that session rolls back, so the store
keeps only the effects of previously completed files. -/
inductive ReplayError where
  | channelMissing
  | badFilename
  | channelDeleted
deriving DecidableEq, Repr

/-- The body of the per-file loop of `process_channel_dir` (source lines
159-185), for one `filename`, run in its own `db_session`.  `contents` maps a
filename to the decoded record stream of that file (file reading and optional
lz4 decompression folded into the lookup).  On `.error` the file's session is
rolled back, so the caller keeps the pre-file store. -/
def processFileStep (contents : String → List BlobRecord) (channel_id : String)
    (db : Db) (filename : String) : Except ReplayError Db :=
  match blobSeqNumber filename with
  | SeqParse.notBlob => Except.ok db
  | SeqParse.badInt => Except.error ReplayError.badFilename
  | SeqParse.seq n =>
    match db.get_channel_with_id channel_id with
    | none => Except.error ReplayError.channelMissing
    | some channel =>
      if n ≤ channel.entry.start_timestamp ∨ n ≤ channel.entry.local_version ∨
          n > channel.entry.timestamp then
        Except.ok db
      else
        let r := process_squashed_mdblob db (contents filename)
        if r.2 then
          Except.ok r.1
        else if r.1.hasRowid channel.rowid then
          Except.ok (r.1.setLocalVersion channel.rowid n)
        else
          Except.error ReplayError.channelDeleted

/-- The file loop of `process_channel_dir`: fold the per-file step over the
sorted listing, stopping at the first uncaught error (whose file session has
been rolled back, leaving the store of the preceding files). -/
def process_channel_dir_go (contents : String → List BlobRecord) (channel_id : String) :
    List String → Db → Db × Option ReplayError
  | [], db => (db, none)
  | f :: fs, db =>
    match processFileStep contents channel_id db f with
    | Except.ok db' => process_channel_dir_go contents channel_id fs db'
    | Except.error e => (db, some e)

/-- `MetadataStore.process_channel_dir` (source lines 146-189).  The initial
`db_session` reads attributes of the channel descriptor for `channel_id`, so
a missing descriptor aborts before the loop; then the files of the directory
listing are visited in Python `sorted` order. -/
def process_channel_dir (contents : String → List BlobRecord)
    (listing : List String) (channel_id : String) (db : Db) : Db × Option ReplayError :=
  match db.get_channel_with_id channel_id with
  | none => (db, some ReplayError.channelMissing)
  | some _ => process_channel_dir_go contents channel_id (pySorted listing) db

/-- The auxiliary key-value table (`MiscData`) that backs the clock. -/
structure MiscDataStore where
  rows : List (String × String)
deriving DecidableEq, Repr

/-- `self.datastore[name].value = v`: Pony raises `ObjectNotFound` when no
row with that name exists, hence the `Option` result. -/
def MiscDataStore.setValue (kv : MiscDataStore) (name v : String) : Option MiscDataStore :=
  if kv.rows.any fun r => r.1 = name then
    some ⟨kv.rows.map fun r => if r.1 = name then (r.1, v) else r⟩
  else
    none

/-- `DiscreteClock.store_value_name`. -/
def store_value_name : String := "discrete_clock"

/-- `DiscreteClock` (source lines 66-93): a Lamport-clock-like persistent
counter, optionally backed by the `MiscData` key-value table. -/
structure DiscreteClock where
  clock : Nat
  datastore : Option MiscDataStore
deriving DecidableEq, Repr

/-- `DiscreteClock.tick` (source lines 88-93): increment the counter, persist
it when a datastore is configured (raising if the clock row is absent), and
return the new value. -/
def DiscreteClock.tick (c : DiscreteClock) : Option (DiscreteClock × Nat) :=
  match c.datastore with
  | none => some ({ c with clock := c.clock + 1 }, c.clock + 1)
  | some ds =>
    match ds.setValue store_value_name (toString (c.clock + 1)) with
    | some ds' => some ({ clock := c.clock + 1, datastore := some ds' }, c.clock + 1)
    | none => none

/-- Read a value of the key-value table. -/
def MiscDataStore.getValue (kv : MiscDataStore) (name : String) : Option String :=
  (kv.rows.find? fun r => r.1 = name).map fun r => r.2

/-- Does the key-value table hold a row with this name? -/
def MiscDataStore.hasName (kv : MiscDataStore) (name : String) : Bool :=
  kv.rows.any fun r => r.1 = name

/-- The record fields of the live entity with identity `R`, if any. -/
def Db.findRow (db : Db) (R : Nat) : Option Entry :=
  (db.rows.find? fun r => r.rowid = R).map Row.entry

/-- Well-formedness of the modelled store: row identities are pairwise
distinct and below the fresh-id counter (Pony never reuses the identity of a
deleted entity). -/
@[reducible] def Db.WF (db : Db) : Prop :=
  (db.rows.map Row.rowid).Nodup ∧ ∀ r ∈ db.rows, r.rowid < db.nextRowid

/-- The store invariant the source relies on (spec section 3: no two live
entries share a signature; the store enforces uniqueness on that column). -/
@[reducible] def Db.uniqSigs (db : Db) : Prop :=
  (db.rows.map fun r => r.entry.signature).Nodup

/-- Sequential reconciliation of a list of payloads, keeping only the store
(the per-payload results list of `process_squashed_mdblob` is discarded by
the replay driver). -/
def processPayloads (db : Db) (ps : List Payload) : Db :=
  ps.foldl (fun d p => (process_payload d p).1) db

/-! ### Basic lemmas about the clock -/

theorem find?_kv_update (l : List (String × String)) (name v : String)
    (h : (l.any fun r => r.1 = name) = true) :
    ((l.map fun r => if r.1 = name then (r.1, v) else r).find? fun r => r.1 = name) =
      some (name, v) := by
  induction l with
  | nil => simp at h
  | cons a t ih =>
    simp only [List.any_cons, Bool.or_eq_true, decide_eq_true_eq] at h
    by_cases ha : a.1 = name
    · simp [List.find?, ha]
    · have ht : (t.any fun r => r.1 = name) = true := by
        rcases h with h | h
        · exact absurd h ha
        · exact h
      simp [List.find?, ha, ih ht]

theorem setValue_of_hasName (kv : MiscDataStore) (name v : String)
    (h : kv.hasName name = true) :
    kv.setValue name v = some ⟨kv.rows.map fun r => if r.1 = name then (r.1, v) else r⟩ := by
  unfold MiscDataStore.setValue
  unfold MiscDataStore.hasName at h
  rw [if_pos h]

theorem getValue_setValue (kv kv' : MiscDataStore) (name v : String)
    (h : kv.setValue name v = some kv') : kv'.getValue name = some v := by
  unfold MiscDataStore.setValue at h
  split at h
  · next hany =>
    injection h with h'
    subst h'
    unfold MiscDataStore.getValue
    rw [find?_kv_update kv.rows name v hany]
    rfl
  · exact absurd h (by simp)

theorem tick_none (c : DiscreteClock) (h : c.datastore = none) :
    c.tick = some ({ c with clock := c.clock + 1 }, c.clock + 1) := by
  unfold DiscreteClock.tick
  rw [h]

theorem tick_some (c : DiscreteClock) (ds : MiscDataStore) (h : c.datastore = some ds) :
    c.tick = match ds.setValue store_value_name (toString (c.clock + 1)) with
      | some ds' => some ({ clock := c.clock + 1, datastore := some ds' }, c.clock + 1)
      | none => none := by
  unfold DiscreteClock.tick
  rw [h]

theorem tick_result (c c' : DiscreteClock) (n : Nat)
    (h : c.tick = some (c', n)) : n = c.clock + 1 ∧ c'.clock = c.clock + 1 := by
  cases hd : c.datastore with
  | none =>
    rw [tick_none c hd] at h
    simp only [Option.some.injEq, Prod.mk.injEq] at h
    exact ⟨h.2.symm, by rw [← h.1]⟩
  | some ds =>
    rw [tick_some c ds hd] at h
    cases hs : ds.setValue store_value_name (toString (c.clock + 1)) with
    | none => rw [hs] at h; exact absurd h (by simp)
    | some ds' =>
      rw [hs] at h
      simp only [Option.some.injEq, Prod.mk.injEq] at h
      exact ⟨h.2.symm, by rw [← h.1]⟩

/-- C9: `DiscreteClock.tick` increments the counter by exactly one, persists
the new value when a backing datastore is configured (and leaves the absent
datastore untouched when none is configured), returns the new counter value,
and successive `tick` calls return strictly increasing values. -/
theorem C9_tick_increments_persists_and_increases (c : DiscreteClock)
    (h : c.datastore = none ∨
      ∃ ds, c.datastore = some ds ∧ ds.hasName store_value_name = true) :
    ∃ c', c.tick = some (c', c.clock + 1) ∧ c'.clock = c.clock + 1 ∧
      (c.datastore = none → c'.datastore = none) ∧
      (∀ ds, c.datastore = some ds → ∃ ds', c'.datastore = some ds' ∧
        ds'.getValue store_value_name = some (toString (c.clock + 1))) ∧
      (∀ c'' n'', c'.tick = some (c'', n'') → c.clock + 1 < n'') := by
  rcases h with hnone | ⟨ds, hds, hname⟩
  · refine ⟨{ c with clock := c.clock + 1 }, ?_, rfl, fun _ => hnone, ?_, ?_⟩
    · rw [tick_none c hnone]
    · intro ds hds
      rw [hnone] at hds
      exact absurd hds (by simp)
    · intro c'' n'' h''
      have h2 : n'' = c.clock + 1 + 1 := (tick_result _ _ _ h'').1
      omega
  · have hset := setValue_of_hasName ds store_value_name (toString (c.clock + 1)) hname
    refine ⟨{ clock := c.clock + 1,
              datastore := some ⟨ds.rows.map fun r =>
                if r.1 = store_value_name then (r.1, toString (c.clock + 1)) else r⟩ },
      ?_, rfl, ?_, ?_, ?_⟩
    · rw [tick_some c ds hds, hset]
    · intro hnone
      rw [hds] at hnone
      exact absurd hnone (by simp)
    · intro ds0 hds0
      rw [hds] at hds0
      injection hds0 with hds0
      subst hds0
      exact ⟨_, rfl, getValue_setValue _ _ _ _ hset⟩
    · intro c'' n'' h''
      have h2 : n'' = c.clock + 1 + 1 := (tick_result _ _ _ h'').1
      omega

/-- Witness for C9 at a concrete clock backed by a one-row datastore. -/
theorem C9_witness :
    ∃ c', DiscreteClock.tick ⟨5, some ⟨[(store_value_name, "5")]⟩⟩ = some (c', 6) := by
  obtain ⟨c', h1, -⟩ :=
    C9_tick_increments_persists_and_increases ⟨5, some ⟨[(store_value_name, "5")]⟩⟩
      (Or.inr ⟨_, rfl, by decide⟩)
  exact ⟨c', h1⟩

/-! ### Unfolding lemmas for the replay driver -/

theorem go_cons (contents : String → List BlobRecord) (cid f : String) (fs : List String)
    (db : Db) :
    process_channel_dir_go contents cid (f :: fs) db =
      match processFileStep contents cid db f with
      | Except.ok db' => process_channel_dir_go contents cid fs db'
      | Except.error e => (db, some e) := rfl

theorem processFileStep_notBlob (contents : String → List BlobRecord) (cid : String)
    (db : Db) (f : String) (h : blobSeqNumber f = SeqParse.notBlob) :
    processFileStep contents cid db f = Except.ok db := by
  unfold processFileStep
  rw [h]

theorem blobSeqNumber_notBlob (f : String)
    (h1 : pyEndsWith f BLOB_EXTENSION = false)
    (h2 : pyEndsWith f (BLOB_EXTENSION ++ ".lz4") = false) :
    blobSeqNumber f = SeqParse.notBlob := by
  unfold blobSeqNumber
  rw [h1, h2]
  rfl

theorem processFileStep_skip (contents : String → List BlobRecord) (cid : String) (db : Db)
    (f : String) (n : Nat) (channel : Row)
    (hparse : blobSeqNumber f = SeqParse.seq n)
    (hch : db.get_channel_with_id cid = some channel)
    (hgate : n ≤ channel.entry.start_timestamp ∨ n ≤ channel.entry.local_version ∨
      n > channel.entry.timestamp) :
    processFileStep contents cid db f = Except.ok db := by
  unfold processFileStep
  simp only [hparse, hch]
  rw [if_pos hgate]

/-- C10: a filename that ends neither in the blob extension nor in the blob
extension followed by `.lz4` is silently skipped by the replay loop: the
per-file step raises no error and returns the store unchanged (no record
mutation, no `local_version` change), and the loop proceeds with the
remaining files exactly as if the file were absent, regardless of the file's
content. -/
theorem C10_non_blob_filenames_silently_skipped
    (contents : String → List BlobRecord) (channel_id : String) (db : Db)
    (f : String) (fs : List String)
    (h1 : pyEndsWith f BLOB_EXTENSION = false)
    (h2 : pyEndsWith f (BLOB_EXTENSION ++ ".lz4") = false) :
    processFileStep contents channel_id db f = Except.ok db ∧
      process_channel_dir_go contents channel_id (f :: fs) db =
        process_channel_dir_go contents channel_id fs db := by
  have hstep := processFileStep_notBlob contents channel_id db f (blobSeqNumber_notBlob f h1 h2)
  exact ⟨hstep, by rw [go_cons, hstep]⟩

/-- Witness for C10 at a concrete non-blob filename with nonempty content. -/
theorem C10_witness :
    processFileStep (fun _ => [BlobRecord.badSig]) "k" ⟨[], 0⟩ "thumbnail.png" =
        Except.ok ⟨[], 0⟩ ∧
      process_channel_dir_go (fun _ => [BlobRecord.badSig]) "k" ["thumbnail.png"] ⟨[], 0⟩ =
        process_channel_dir_go (fun _ => [BlobRecord.badSig]) "k" [] ⟨[], 0⟩ :=
  C10_non_blob_filenames_silently_skipped (fun _ => [BlobRecord.badSig]) "k" ⟨[], 0⟩
    "thumbnail.png" [] (by decide) (by decide)

/-- C2: a blob file whose sequence number is at most the channel's
`start_timestamp`, or at most its `local_version`, or greater than its
`timestamp`, is skipped by the replay: the per-file step returns the store
completely unchanged (so no record is created, updated or deleted and the
`local_version` cursor is untouched), and the loop continues with the
remaining files. -/
theorem C2_window_gated_file_skipped
    (contents : String → List BlobRecord) (channel_id : String) (db : Db)
    (f : String) (fs : List String) (n : Nat) (channel : Row)
    (hparse : blobSeqNumber f = SeqParse.seq n)
    (hch : db.get_channel_with_id channel_id = some channel)
    (hgate : n ≤ channel.entry.start_timestamp ∨ n ≤ channel.entry.local_version ∨
      n > channel.entry.timestamp) :
    processFileStep contents channel_id db f = Except.ok db ∧
      process_channel_dir_go contents channel_id (f :: fs) db =
        process_channel_dir_go contents channel_id fs db := by
  have hstep := processFileStep_skip contents channel_id db f n channel hparse hch hgate
  exact ⟨hstep, by rw [go_cons, hstep]⟩

/-- Witness for C2: a channel with window `start_timestamp = 100`,
`local_version = 110`, `timestamp = 150` skips the files `50.mdblob`
(before the window), `105.mdblob` (already ingested) and `200.mdblob`
(ahead of the advertised version). -/
theorem C2_witness :
    processFileStep (fun _ => [BlobRecord.badSig]) "k"
        ⟨[⟨0, ⟨MetadataType.CHANNEL_TORRENT, "k", 1, 0, 150, "cs", "c", 100, 110⟩⟩], 1⟩
        "50.mdblob" =
      Except.ok ⟨[⟨0, ⟨MetadataType.CHANNEL_TORRENT, "k", 1, 0, 150, "cs", "c", 100, 110⟩⟩], 1⟩ ∧
    processFileStep (fun _ => [BlobRecord.badSig]) "k"
        ⟨[⟨0, ⟨MetadataType.CHANNEL_TORRENT, "k", 1, 0, 150, "cs", "c", 100, 110⟩⟩], 1⟩
        "105.mdblob" =
      Except.ok ⟨[⟨0, ⟨MetadataType.CHANNEL_TORRENT, "k", 1, 0, 150, "cs", "c", 100, 110⟩⟩], 1⟩ ∧
    processFileStep (fun _ => [BlobRecord.badSig]) "k"
        ⟨[⟨0, ⟨MetadataType.CHANNEL_TORRENT, "k", 1, 0, 150, "cs", "c", 100, 110⟩⟩], 1⟩
        "200.mdblob" =
      Except.ok ⟨[⟨0, ⟨MetadataType.CHANNEL_TORRENT, "k", 1, 0, 150, "cs", "c", 100, 110⟩⟩], 1⟩ :=
  ⟨(C2_window_gated_file_skipped _ "k" _ "50.mdblob" [] 50
      ⟨0, ⟨MetadataType.CHANNEL_TORRENT, "k", 1, 0, 150, "cs", "c", 100, 110⟩⟩
      (by decide) (by decide) (by decide)).1,
   (C2_window_gated_file_skipped _ "k" _ "105.mdblob" [] 105
      ⟨0, ⟨MetadataType.CHANNEL_TORRENT, "k", 1, 0, 150, "cs", "c", 100, 110⟩⟩
      (by decide) (by decide) (by decide)).1,
   (C2_window_gated_file_skipped _ "k" _ "200.mdblob" [] 200
      ⟨0, ⟨MetadataType.CHANNEL_TORRENT, "k", 1, 0, 150, "cs", "c", 100, 110⟩⟩
      (by decide) (by decide) (by decide)).1⟩

/-! ### Branch lemmas for the reconciliation engine -/

theorem pp_existsSig (db : Db) (p : Payload) (h : db.existsSig p.signature = true) :
    process_payload db p = (db, none, GOT_SAME_VERSION) := by
  unfold process_payload
  rw [if_pos h]

theorem pp_deleted_found (db : Db) (p : Payload) (r : Row)
    (h1 : db.existsSig p.signature = false)
    (h2 : p.metadata_type = MetadataType.DELETED)
    (h3 : db.getBySigPk p.delete_signature p.public_key = some r) :
    process_payload db p = (db.deleteRow r.rowid, none, DELETED_METADATA) := by
  unfold process_payload
  rw [if_neg (by simp [h1]), if_pos h2]
  simp only [h3]

theorem pp_deleted_none (db : Db) (p : Payload)
    (h1 : db.existsSig p.signature = false)
    (h2 : p.metadata_type = MetadataType.DELETED)
    (h3 : db.getBySigPk p.delete_signature p.public_key = none) :
    process_payload db p = (db, none, NO_ACTION) := by
  unfold process_payload
  rw [if_neg (by simp [h1]), if_pos h2]
  simp only [h3]

theorem pp_gated (db : Db) (p : Payload)
    (h1 : db.existsSig p.signature = false)
    (h2 : p.metadata_type ≠ MetadataType.DELETED)
    (h3 : gatedByChannelVersion db p = true) :
    process_payload db p = (db, none, NO_ACTION) := by
  unfold process_payload
  rw [if_neg (by simp [h1]), if_neg h2, if_pos h3]

theorem pp_ungated (db : Db) (p : Payload)
    (h1 : db.existsSig p.signature = false)
    (h2 : p.metadata_type ≠ MetadataType.DELETED)
    (h3 : gatedByChannelVersion db p = false) :
    process_payload db p = kindDispatch db p := by
  unfold process_payload
  rw [if_neg (by simp [h1]), if_neg h2, if_neg (by simp [h3])]

theorem kd_torrent (db : Db) (p : Payload)
    (h : p.metadata_type = MetadataType.REGULAR_TORRENT) :
    kindDispatch db p = (db.insert (TorrentMetadata_from_payload p),
      some (TorrentMetadata_from_payload p), UNKNOWN_TORRENT) := by
  unfold kindDispatch
  rw [if_pos h]

theorem kd_channel (db : Db) (p : Payload)
    (h : p.metadata_type = MetadataType.CHANNEL_TORRENT) :
    kindDispatch db p = ((update_channel_info db p).1, some (update_channel_info db p).2.1,
      (update_channel_info db p).2.2) := by
  unfold kindDispatch
  rw [if_neg (by simp [h]), if_pos h]

theorem kd_other (db : Db) (p : Payload)
    (h1 : p.metadata_type ≠ MetadataType.REGULAR_TORRENT)
    (h2 : p.metadata_type ≠ MetadataType.CHANNEL_TORRENT) :
    kindDispatch db p = (db, none, NO_ACTION) := by
  unfold kindDispatch
  rw [if_neg h1, if_neg h2]

theorem uci_some_newer (db : Db) (p : Payload) (channel : Row)
    (hch : db.get_channel_with_id p.public_key = some channel)
    (ht : p.timestamp > channel.entry.timestamp) :
    update_channel_info db p =
      (db.updateRow channel.rowid (applyChannelPayload channel.entry p),
        applyChannelPayload channel.entry p, UPDATED_OUR_VERSION) := by
  unfold update_channel_info
  simp only [hch]
  rw [if_pos ht]

theorem uci_some_same (db : Db) (p : Payload) (channel : Row)
    (hch : db.get_channel_with_id p.public_key = some channel)
    (ht : p.timestamp = channel.entry.timestamp) :
    update_channel_info db p = (db, channel.entry, GOT_SAME_VERSION) := by
  unfold update_channel_info
  simp only [hch]
  rw [if_neg (by omega), if_pos ht]

theorem uci_some_older (db : Db) (p : Payload) (channel : Row)
    (hch : db.get_channel_with_id p.public_key = some channel)
    (ht : p.timestamp < channel.entry.timestamp) :
    update_channel_info db p = (db, channel.entry, GOT_NEWER_VERSION) := by
  unfold update_channel_info
  simp only [hch]
  rw [if_neg (by omega), if_neg (by omega)]

theorem uci_none (db : Db) (p : Payload)
    (hch : db.get_channel_with_id p.public_key = none) :
    update_channel_info db p =
      (db.insert (ChannelMetadata_from_payload p), ChannelMetadata_from_payload p,
        UNKNOWN_CHANNEL) := by
  unfold update_channel_info
  simp only [hch]

/-- C5: `update_channel_info` performs a three-way timestamp comparison
against the existing channel descriptor for the payload's public key: a
strictly newer payload replaces the descriptor's payload-carried fields in
place and returns `UPDATED_OUR_VERSION`; an equal timestamp returns
`GOT_SAME_VERSION` with the store unchanged; an older payload returns
`GOT_NEWER_VERSION` with the store unchanged; and when no descriptor exists
for that public key a new one is created from the payload with outcome
`UNKNOWN_CHANNEL`. -/
theorem C5_update_channel_info_three_way (db : Db) (p : Payload) :
    (∀ channel, db.get_channel_with_id p.public_key = some channel →
      (p.timestamp > channel.entry.timestamp →
        update_channel_info db p =
          (db.updateRow channel.rowid (applyChannelPayload channel.entry p),
            applyChannelPayload channel.entry p, UPDATED_OUR_VERSION) ∧
        (applyChannelPayload channel.entry p).metadata_type = p.metadata_type ∧
        (applyChannelPayload channel.entry p).id_ = p.id_ ∧
        (applyChannelPayload channel.entry p).origin_id = p.origin_id ∧
        (applyChannelPayload channel.entry p).timestamp = p.timestamp ∧
        (applyChannelPayload channel.entry p).signature = p.signature ∧
        (applyChannelPayload channel.entry p).title = p.title) ∧
      (p.timestamp = channel.entry.timestamp →
        update_channel_info db p = (db, channel.entry, GOT_SAME_VERSION)) ∧
      (p.timestamp < channel.entry.timestamp →
        update_channel_info db p = (db, channel.entry, GOT_NEWER_VERSION))) ∧
    (db.get_channel_with_id p.public_key = none →
      update_channel_info db p =
        (db.insert (ChannelMetadata_from_payload p), ChannelMetadata_from_payload p,
          UNKNOWN_CHANNEL)) := by
  refine ⟨fun channel hch => ⟨fun ht => ⟨uci_some_newer db p channel hch ht,
    rfl, rfl, rfl, rfl, rfl, rfl⟩,
    fun ht => uci_some_same db p channel hch ht,
    fun ht => uci_some_older db p channel hch ht⟩,
    fun hch => uci_none db p hch⟩

/-- Witness for C5: all four branches at concrete stores (an existing channel
at timestamp 100 facing payloads at 101, 100 and 99, and an empty store). -/
theorem C5_witness :
    (update_channel_info
        ⟨[⟨0, ⟨MetadataType.CHANNEL_TORRENT, "k", 1, 0, 100, "cs", "c", 10, 20⟩⟩], 1⟩
        ⟨MetadataType.CHANNEL_TORRENT, "k", 2, 0, 101, "s2", "", "c2", 10⟩).2.2 =
      UPDATED_OUR_VERSION ∧
    (update_channel_info
        ⟨[⟨0, ⟨MetadataType.CHANNEL_TORRENT, "k", 1, 0, 100, "cs", "c", 10, 20⟩⟩], 1⟩
        ⟨MetadataType.CHANNEL_TORRENT, "k", 2, 0, 100, "s2", "", "c2", 10⟩).2.2 =
      GOT_SAME_VERSION ∧
    (update_channel_info
        ⟨[⟨0, ⟨MetadataType.CHANNEL_TORRENT, "k", 1, 0, 100, "cs", "c", 10, 20⟩⟩], 1⟩
        ⟨MetadataType.CHANNEL_TORRENT, "k", 2, 0, 99, "s2", "", "c2", 10⟩).2.2 =
      GOT_NEWER_VERSION ∧
    (update_channel_info ⟨[], 0⟩
        ⟨MetadataType.CHANNEL_TORRENT, "k", 2, 0, 101, "s2", "", "c2", 10⟩).2.2 =
      UNKNOWN_CHANNEL := by
  refine ⟨?_, ?_, ?_, ?_⟩
  · rw [(((C5_update_channel_info_three_way
      ⟨[⟨0, ⟨MetadataType.CHANNEL_TORRENT, "k", 1, 0, 100, "cs", "c", 10, 20⟩⟩], 1⟩
      ⟨MetadataType.CHANNEL_TORRENT, "k", 2, 0, 101, "s2", "", "c2", 10⟩).1
      ⟨0, ⟨MetadataType.CHANNEL_TORRENT, "k", 1, 0, 100, "cs", "c", 10, 20⟩⟩
      (by decide)).1 (by decide)).1]
  · rw [((C5_update_channel_info_three_way
      ⟨[⟨0, ⟨MetadataType.CHANNEL_TORRENT, "k", 1, 0, 100, "cs", "c", 10, 20⟩⟩], 1⟩
      ⟨MetadataType.CHANNEL_TORRENT, "k", 2, 0, 100, "s2", "", "c2", 10⟩).1
      ⟨0, ⟨MetadataType.CHANNEL_TORRENT, "k", 1, 0, 100, "cs", "c", 10, 20⟩⟩
      (by decide)).2.1 (by decide)]
  · rw [((C5_update_channel_info_three_way
      ⟨[⟨0, ⟨MetadataType.CHANNEL_TORRENT, "k", 1, 0, 100, "cs", "c", 10, 20⟩⟩], 1⟩
      ⟨MetadataType.CHANNEL_TORRENT, "k", 2, 0, 99, "s2", "", "c2", 10⟩).1
      ⟨0, ⟨MetadataType.CHANNEL_TORRENT, "k", 1, 0, 100, "cs", "c", 10, 20⟩⟩
      (by decide)).2.2 (by decide)]
  · rw [(C5_update_channel_info_three_way ⟨[], 0⟩
      ⟨MetadataType.CHANNEL_TORRENT, "k", 2, 0, 101, "s2", "", "c2", 10⟩).2 (by decide)]

/-! ### Store lemmas -/

theorem existsSig_insert_self (db : Db) (e : Entry) :
    (db.insert e).existsSig e.signature = true := by
  unfold Db.insert Db.existsSig
  simp

theorem existsSig_false_deleteRow (db : Db) (rid : Nat) (s : String)
    (h : db.existsSig s = false) : (db.deleteRow rid).existsSig s = false := by
  unfold Db.existsSig at h
  unfold Db.existsSig Db.deleteRow
  simp only [List.any_eq_false] at h ⊢
  intro x hx
  exact h x (List.mem_of_mem_filter hx)

theorem existsSig_updateRow_self (db : Db) (r : Row) (e : Entry) (hmem : r ∈ db.rows) :
    (db.updateRow r.rowid e).existsSig e.signature = true := by
  unfold Db.existsSig Db.updateRow
  simp only [List.any_eq_true, List.mem_map]
  exact ⟨{ r with entry := e }, ⟨r, hmem, by simp⟩, by simp⟩

theorem getBySigPk_spec (db : Db) (s pk : String) (r : Row)
    (h : db.getBySigPk s pk = some r) :
    r ∈ db.rows ∧ r.entry.signature = s ∧ r.entry.public_key = pk := by
  unfold Db.getBySigPk at h
  have hmem := List.mem_of_find?_eq_some h
  have hp := List.find?_some h
  simp only [decide_eq_true_eq] at hp
  exact ⟨hmem, hp.1, hp.2⟩

theorem get_channel_with_id_spec (db : Db) (pk : String) (r : Row)
    (h : db.get_channel_with_id pk = some r) :
    r ∈ db.rows ∧ r.entry.metadata_type = MetadataType.CHANNEL_TORRENT ∧
      r.entry.public_key = pk := by
  unfold Db.get_channel_with_id at h
  have hmem := List.mem_of_find?_eq_some h
  have hp := List.find?_some h
  simp only [decide_eq_true_eq] at hp
  exact ⟨hmem, hp.1, hp.2⟩

theorem getBySigPk_deleteRow_found (db : Db) (s pk pk' : String) (r : Row)
    (huniq : db.uniqSigs) (h : db.getBySigPk s pk = some r) :
    (db.deleteRow r.rowid).getBySigPk s pk' = none := by
  obtain ⟨hmem, hsig, -⟩ := getBySigPk_spec db s pk r h
  unfold Db.getBySigPk Db.deleteRow
  rw [List.find?_eq_none]
  intro x hx
  have hx' := List.mem_of_mem_filter hx
  have hxf := List.of_mem_filter hx
  simp only [decide_eq_true_eq] at hxf
  simp only [decide_eq_true_eq, not_and]
  intro hxs hpk'
  have hxe : x = r := List.inj_on_of_nodup_map huniq hx' hmem (by rw [hxs, hsig])
  exact hxf (congrArg Row.rowid hxe)

/-! ### C6: the stale-version gate and its preview bypass -/

/-- C6: for a non-tombstone payload whose signature is not yet stored, when a
channel exists for the payload's public key and origin id with a non-zero
`local_version` and the payload's timestamp is at most that `local_version`,
reconciliation returns `(None, NO_ACTION)` with the store unchanged; when
that channel's `local_version` is `0` (preview state) the gate is bypassed
and reconciliation proceeds to the kind dispatch. -/
theorem C6_stale_version_gate (db : Db) (p : Payload) (channel : Row)
    (h1 : db.existsSig p.signature = false)
    (h2 : p.metadata_type ≠ MetadataType.DELETED)
    (hch : db.getChannelByPkId p.public_key p.origin_id = some channel) :
    (channel.entry.local_version ≠ 0 → p.timestamp ≤ channel.entry.local_version →
      process_payload db p = (db, none, NO_ACTION)) ∧
    (channel.entry.local_version = 0 → process_payload db p = kindDispatch db p) := by
  constructor
  · intro hlv hts
    refine pp_gated db p h1 h2 ?_
    unfold gatedByChannelVersion
    rw [hch]
    simp [hlv, hts]
  · intro hlv
    refine pp_ungated db p h1 h2 ?_
    unfold gatedByChannelVersion
    rw [hch]
    simp [hlv]

/-- Witness for C6: a torrent payload with timestamp 40 against a channel with
committed cursor 50 is dropped; against the same channel in preview state
(`local_version = 0`) it falls through to the kind dispatch. -/
theorem C6_witness :
    process_payload ⟨[⟨0, ⟨MetadataType.CHANNEL_TORRENT, "k", 7, 0, 100, "cs", "c", 10, 50⟩⟩], 1⟩
        ⟨MetadataType.REGULAR_TORRENT, "k", 9, 7, 40, "ts", "", "t", 0⟩ =
      (⟨[⟨0, ⟨MetadataType.CHANNEL_TORRENT, "k", 7, 0, 100, "cs", "c", 10, 50⟩⟩], 1⟩, none,
        NO_ACTION) ∧
    process_payload ⟨[⟨0, ⟨MetadataType.CHANNEL_TORRENT, "k", 7, 0, 100, "cs", "c", 10, 0⟩⟩], 1⟩
        ⟨MetadataType.REGULAR_TORRENT, "k", 9, 7, 40, "ts", "", "t", 0⟩ =
      kindDispatch ⟨[⟨0, ⟨MetadataType.CHANNEL_TORRENT, "k", 7, 0, 100, "cs", "c", 10, 0⟩⟩], 1⟩
        ⟨MetadataType.REGULAR_TORRENT, "k", 9, 7, 40, "ts", "", "t", 0⟩ := by
  constructor
  · exact (C6_stale_version_gate _ _
      ⟨0, ⟨MetadataType.CHANNEL_TORRENT, "k", 7, 0, 100, "cs", "c", 10, 50⟩⟩
      (by decide) (by decide) (by decide)).1 (by decide) (by decide)
  · exact (C6_stale_version_gate _ _
      ⟨0, ⟨MetadataType.CHANNEL_TORRENT, "k", 7, 0, 100, "cs", "c", 10, 0⟩⟩
      (by decide) (by decide) (by decide)).2 (by decide)

/-! ### C4: tombstones only delete the author's own entries -/

/-- C4 as frozen is refuted at one corner: when the store already holds an
entry bearing the tombstone's own signature, the duplicate-signature check of
`process_payload` fires first and the call returns `GOT_SAME_VERSION`, not
`NO_ACTION` (the targeted entry of another author is still not deleted and
the store is still unchanged). -/
theorem C4_counterexample :
    process_payload
        ⟨[⟨0, ⟨MetadataType.REGULAR_TORRENT, "A", 1, 0, 5, "s1", "t1", 0, 0⟩⟩,
          ⟨1, ⟨MetadataType.REGULAR_TORRENT, "C", 2, 0, 6, "t1", "t2", 0, 0⟩⟩], 2⟩
        ⟨MetadataType.DELETED, "B", 3, 0, 7, "t1", "s1", "", 0⟩ =
      (⟨[⟨0, ⟨MetadataType.REGULAR_TORRENT, "A", 1, 0, 5, "s1", "t1", 0, 0⟩⟩,
          ⟨1, ⟨MetadataType.REGULAR_TORRENT, "C", 2, 0, 6, "t1", "t2", 0, 0⟩⟩], 2⟩, none,
        GOT_SAME_VERSION) ∧
      GOT_SAME_VERSION ≠ NO_ACTION := by
  constructor
  · decide
  · decide

/-- C4 (amended): a tombstone whose author key differs from the key of the
stored entry bearing the targeted signature never deletes that entry;
provided no stored entry bears the tombstone's own signature (tombstones are
never stored, so this holds in reachable states), reconciliation returns
`(None, NO_ACTION)` and the store is completely unchanged.  Signature
uniqueness of the store is assumed (spec section 3 invariant). -/
theorem C4_tombstone_self_revocation_only (db : Db) (p : Payload) (e : Row)
    (huniq : db.uniqSigs)
    (hmem : e ∈ db.rows)
    (hsig : e.entry.signature = p.delete_signature)
    (hpk : e.entry.public_key ≠ p.public_key)
    (htype : p.metadata_type = MetadataType.DELETED)
    (hown : db.existsSig p.signature = false) :
    process_payload db p = (db, none, NO_ACTION) := by
  have hget : db.getBySigPk p.delete_signature p.public_key = none := by
    unfold Db.getBySigPk
    rw [List.find?_eq_none]
    intro x hx
    simp only [decide_eq_true_eq, not_and]
    intro hxs hxpk
    have hxe : x = e := List.inj_on_of_nodup_map huniq hx hmem (by rw [hxs, hsig])
    rw [hxe] at hxpk
    exact hpk hxpk
  exact pp_deleted_none db p hown htype hget

/-- Witness for C4 (amended): a tombstone by author B targeting an entry
signed by author A is a no-op. -/
theorem C4_witness :
    process_payload ⟨[⟨0, ⟨MetadataType.REGULAR_TORRENT, "A", 1, 0, 5, "s1", "t1", 0, 0⟩⟩], 1⟩
        ⟨MetadataType.DELETED, "B", 3, 0, 7, "zz", "s1", "", 0⟩ =
      (⟨[⟨0, ⟨MetadataType.REGULAR_TORRENT, "A", 1, 0, 5, "s1", "t1", 0, 0⟩⟩], 1⟩, none,
        NO_ACTION) :=
  C4_tombstone_self_revocation_only _ _
    ⟨0, ⟨MetadataType.REGULAR_TORRENT, "A", 1, 0, 5, "s1", "t1", 0, 0⟩⟩
    (by decide) (by decide) (by decide) (by decide) (by decide) (by decide)

/-! ### C3: re-reconciliation of the same payload -/

/-- C3 as frozen is refuted by tombstones: a tombstone that deletes its
target is not itself stored, so re-reconciling it yields `NO_ACTION`
(not `GOT_SAME_VERSION`) on the second call. -/
theorem C3_counterexample :
    (process_payload
        ⟨[⟨0, ⟨MetadataType.REGULAR_TORRENT, "A", 1, 0, 5, "s1", "t", 0, 0⟩⟩], 1⟩
        ⟨MetadataType.DELETED, "A", 3, 0, 7, "t1", "s1", "", 0⟩).2.2 = DELETED_METADATA ∧
    (process_payload
        (process_payload
          ⟨[⟨0, ⟨MetadataType.REGULAR_TORRENT, "A", 1, 0, 5, "s1", "t", 0, 0⟩⟩], 1⟩
          ⟨MetadataType.DELETED, "A", 3, 0, 7, "t1", "s1", "", 0⟩).1
        ⟨MetadataType.DELETED, "A", 3, 0, 7, "t1", "s1", "", 0⟩).2.2 = NO_ACTION ∧
    NO_ACTION ≠ GOT_SAME_VERSION := by
  refine ⟨by decide, by decide, by decide⟩

/-- C3 (amended): reconciling the same payload a second time never mutates
the store (signature uniqueness of the store assumed), and the second call's
outcome is one of the non-mutating codes `GOT_SAME_VERSION`, `NO_ACTION` or
`GOT_NEWER_VERSION` — but not necessarily `GOT_SAME_VERSION`: a tombstone
that deleted its target yields `NO_ACTION` the second time, since tombstones
are never stored. -/
theorem C3_reapply_leaves_store_unchanged (db : Db) (p : Payload) (huniq : db.uniqSigs) :
    (process_payload (process_payload db p).1 p).1 = (process_payload db p).1 ∧
      ((process_payload (process_payload db p).1 p).2.2 = GOT_SAME_VERSION ∨
       (process_payload (process_payload db p).1 p).2.2 = NO_ACTION ∨
       (process_payload (process_payload db p).1 p).2.2 = GOT_NEWER_VERSION) := by
  cases hex : db.existsSig p.signature with
  | true =>
    simp only [pp_existsSig db p hex]
    exact ⟨trivial, Or.inl trivial⟩
  | false =>
    by_cases htype : p.metadata_type = MetadataType.DELETED
    · cases hdel : db.getBySigPk p.delete_signature p.public_key with
      | none =>
        simp only [pp_deleted_none db p hex htype hdel]
        exact ⟨trivial, Or.inr (Or.inl trivial)⟩
      | some r =>
        have h1 := pp_deleted_found db p r hex htype hdel
        have hex2 : (db.deleteRow r.rowid).existsSig p.signature = false :=
          existsSig_false_deleteRow db r.rowid p.signature hex
        have hdel2 : (db.deleteRow r.rowid).getBySigPk p.delete_signature p.public_key = none :=
          getBySigPk_deleteRow_found db p.delete_signature p.public_key p.public_key r huniq hdel
        have h2 := pp_deleted_none (db.deleteRow r.rowid) p hex2 htype hdel2
        simp only [h1, h2]
        exact ⟨trivial, Or.inr (Or.inl trivial)⟩
    · cases hgate : gatedByChannelVersion db p with
      | true =>
        simp only [pp_gated db p hex htype hgate]
        exact ⟨trivial, Or.inr (Or.inl trivial)⟩
      | false =>
        have h1 := pp_ungated db p hex htype hgate
        cases hkind : p.metadata_type with
        | DELETED => exact absurd hkind htype
        | REGULAR_TORRENT =>
          have h1' : process_payload db p =
              (db.insert (TorrentMetadata_from_payload p),
                some (TorrentMetadata_from_payload p), UNKNOWN_TORRENT) := by
            rw [h1, kd_torrent db p hkind]
          have hsig2 : (db.insert (TorrentMetadata_from_payload p)).existsSig p.signature =
              true := existsSig_insert_self db (TorrentMetadata_from_payload p)
          have h2 := pp_existsSig _ p hsig2
          simp only [h1', h2]
          exact ⟨trivial, Or.inl trivial⟩
        | CHANNEL_TORRENT =>
          have h1' := h1.trans (kd_channel db p hkind)
          cases hch : db.get_channel_with_id p.public_key with
          | some channel =>
            rcases Nat.lt_trichotomy channel.entry.timestamp p.timestamp with hlt | heq | hgt
            · have hu := uci_some_newer db p channel hch hlt
              have h1'' : process_payload db p =
                  (db.updateRow channel.rowid (applyChannelPayload channel.entry p),
                    some (applyChannelPayload channel.entry p), UPDATED_OUR_VERSION) := by
                rw [h1', hu]
              have hmem := (get_channel_with_id_spec db p.public_key channel hch).1
              have hsig2 : (db.updateRow channel.rowid
                  (applyChannelPayload channel.entry p)).existsSig p.signature = true :=
                existsSig_updateRow_self db channel (applyChannelPayload channel.entry p) hmem
              have h2 := pp_existsSig _ p hsig2
              simp only [h1'', h2]
              exact ⟨trivial, Or.inl trivial⟩
            · have hu := uci_some_same db p channel hch heq.symm
              have h1'' : process_payload db p = (db, some channel.entry, GOT_SAME_VERSION) := by
                rw [h1', hu]
              simp only [h1'']
              exact ⟨trivial, Or.inl trivial⟩
            · have hu := uci_some_older db p channel hch hgt
              have h1'' : process_payload db p = (db, some channel.entry, GOT_NEWER_VERSION) := by
                rw [h1', hu]
              simp only [h1'']
              exact ⟨trivial, Or.inr (Or.inr trivial)⟩
          | none =>
            have hu := uci_none db p hch
            have h1'' : process_payload db p =
                (db.insert (ChannelMetadata_from_payload p),
                  some (ChannelMetadata_from_payload p), UNKNOWN_CHANNEL) := by
              rw [h1', hu]
            have hsig2 : (db.insert (ChannelMetadata_from_payload p)).existsSig p.signature =
                true := existsSig_insert_self db (ChannelMetadata_from_payload p)
            have h2 := pp_existsSig _ p hsig2
            simp only [h1'', h2]
            exact ⟨trivial, Or.inl trivial⟩
        | OTHER =>
          have h1' : process_payload db p = (db, none, NO_ACTION) := by
            rw [h1, kd_other db p (by simp [hkind]) (by simp [hkind])]
          simp only [h1']
          exact ⟨trivial, Or.inr (Or.inl trivial)⟩

/-- Witness for C3 (amended): a torrent payload applied twice to the empty
store; the second application leaves the store unchanged. -/
theorem C3_witness :
    (process_payload
        (process_payload ⟨[], 0⟩ ⟨MetadataType.REGULAR_TORRENT, "A", 1, 0, 5, "s1", "", "t", 0⟩).1
        ⟨MetadataType.REGULAR_TORRENT, "A", 1, 0, 5, "s1", "", "t", 0⟩).1 =
      (process_payload ⟨[], 0⟩ ⟨MetadataType.REGULAR_TORRENT, "A", 1, 0, 5, "s1", "", "t", 0⟩).1 ∧
    ((process_payload
        (process_payload ⟨[], 0⟩ ⟨MetadataType.REGULAR_TORRENT, "A", 1, 0, 5, "s1", "", "t", 0⟩).1
        ⟨MetadataType.REGULAR_TORRENT, "A", 1, 0, 5, "s1", "", "t", 0⟩).2.2 = GOT_SAME_VERSION ∨
     (process_payload
        (process_payload ⟨[], 0⟩ ⟨MetadataType.REGULAR_TORRENT, "A", 1, 0, 5, "s1", "", "t", 0⟩).1
        ⟨MetadataType.REGULAR_TORRENT, "A", 1, 0, 5, "s1", "", "t", 0⟩).2.2 = NO_ACTION ∨
     (process_payload
        (process_payload ⟨[], 0⟩ ⟨MetadataType.REGULAR_TORRENT, "A", 1, 0, 5, "s1", "", "t", 0⟩).1
        ⟨MetadataType.REGULAR_TORRENT, "A", 1, 0, 5, "s1", "", "t", 0⟩).2.2 =
      GOT_NEWER_VERSION) :=
  C3_reapply_leaves_store_unchanged ⟨[], 0⟩
    ⟨MetadataType.REGULAR_TORRENT, "A", 1, 0, 5, "s1", "", "t", 0⟩ (by decide)

/-! ### C1: the driver sorts filenames as strings, not by sequence number -/

/-- C1: `process_channel_dir` iterates `sorted(os.listdir(dirname))`, i.e.
lexical string order.  `"10.mdblob"` sorts before `"2.mdblob"`, so the blob
with sequence number 10 is processed first; the cursor then advances to 10
and the blob with sequence number 2 is skipped by the `local_version` gate:
the torrent payload contained in `2.mdblob` is never ingested. -/
theorem C1_lexical_sort_misorders_blobs :
    pySorted ["2.mdblob", "10.mdblob"] = ["10.mdblob", "2.mdblob"] ∧
    process_channel_dir
        (fun f => if f = "2.mdblob" then
          [BlobRecord.record ⟨MetadataType.REGULAR_TORRENT, "k", 2, 1, 2, "ts", "", "t", 0⟩]
          else [])
        ["2.mdblob", "10.mdblob"] "k"
        ⟨[⟨0, ⟨MetadataType.CHANNEL_TORRENT, "k", 1, 0, 100, "cs", "c", 0, 0⟩⟩], 1⟩ =
      (⟨[⟨0, ⟨MetadataType.CHANNEL_TORRENT, "k", 1, 0, 100, "cs", "c", 0, 10⟩⟩], 1⟩, none) := by
  refine ⟨by decide, by decide⟩

/-! ### C7: a signature failure commits the records decoded before it -/

/-- C7 as frozen is refuted: the per-file `db_session` is the outermost one,
the nested sessions of `process_mdblob_file` / `process_payload` are
re-entrant no-ops, and the `InvalidSignatureException` raised by the decode
loop is caught inside the outer session, which therefore commits on exit.
A file holding one valid torrent record followed by a record that fails
signature verification leaves the torrent committed in the store (while
`local_version` stays unadvanced and the replay finishes normally) —
not the all-or-nothing behaviour the claim states. -/
theorem C7_counterexample :
    process_channel_dir
        (fun _ => [BlobRecord.record ⟨MetadataType.REGULAR_TORRENT, "k", 2, 1, 5, "ts", "", "t", 0⟩,
                   BlobRecord.badSig])
        ["5.mdblob"] "k"
        ⟨[⟨0, ⟨MetadataType.CHANNEL_TORRENT, "k", 1, 0, 100, "cs", "c", 0, 0⟩⟩], 1⟩ =
      (⟨[⟨0, ⟨MetadataType.CHANNEL_TORRENT, "k", 1, 0, 100, "cs", "c", 0, 0⟩⟩,
         ⟨1, ⟨MetadataType.REGULAR_TORRENT, "k", 2, 1, 5, "ts", "t", 0, 0⟩⟩], 2⟩, none) := by
  decide

theorem squashed_badSig (db : Db) (ps : List Payload) (rest : List BlobRecord) :
    process_squashed_mdblob db (ps.map BlobRecord.record ++ BlobRecord.badSig :: rest) =
      (processPayloads db ps, true) := by
  induction ps generalizing db with
  | nil => rfl
  | cons p t ih => exact ih ((process_payload db p).1)

/-- C7 (amended): for an in-window blob file whose decoded stream is some
valid records followed by a record failing signature verification, the
per-file step commits exactly the payloads decoded before the failure, does
not advance `local_version`, and the replay continues with the next file of
the ordered listing. -/
theorem C7_sig_failure_partial_commit (contents : String → List BlobRecord)
    (cid : String) (db : Db) (f : String) (fs : List String) (n : Nat) (channel : Row)
    (ps : List Payload) (rest : List BlobRecord)
    (hparse : blobSeqNumber f = SeqParse.seq n)
    (hch : db.get_channel_with_id cid = some channel)
    (hgate : ¬(n ≤ channel.entry.start_timestamp ∨ n ≤ channel.entry.local_version ∨
      n > channel.entry.timestamp))
    (hcontents : contents f = ps.map BlobRecord.record ++ BlobRecord.badSig :: rest) :
    processFileStep contents cid db f = Except.ok (processPayloads db ps) ∧
      process_channel_dir_go contents cid (f :: fs) db =
        process_channel_dir_go contents cid fs (processPayloads db ps) := by
  have hstep : processFileStep contents cid db f = Except.ok (processPayloads db ps) := by
    unfold processFileStep
    simp only [hparse, hch]
    rw [if_neg hgate]
    simp only [hcontents, squashed_badSig]
    rw [if_pos trivial]
  exact ⟨hstep, by rw [go_cons, hstep]⟩

/-- Witness for C7 (amended) at the concrete two-record blob. -/
theorem C7_witness :
    processFileStep
        (fun _ => [BlobRecord.record ⟨MetadataType.REGULAR_TORRENT, "k", 2, 1, 5, "ts", "", "t", 0⟩,
                   BlobRecord.badSig])
        "k" ⟨[⟨0, ⟨MetadataType.CHANNEL_TORRENT, "k", 1, 0, 100, "cs", "c", 0, 0⟩⟩], 1⟩
        "5.mdblob" =
      Except.ok (processPayloads
        ⟨[⟨0, ⟨MetadataType.CHANNEL_TORRENT, "k", 1, 0, 100, "cs", "c", 0, 0⟩⟩], 1⟩
        [⟨MetadataType.REGULAR_TORRENT, "k", 2, 1, 5, "ts", "", "t", 0⟩]) :=
  (C7_sig_failure_partial_commit _ "k" _ "5.mdblob" [] 5
    ⟨0, ⟨MetadataType.CHANNEL_TORRENT, "k", 1, 0, 100, "cs", "c", 0, 0⟩⟩
    [⟨MetadataType.REGULAR_TORRENT, "k", 2, 1, 5, "ts", "", "t", 0⟩] []
    (by decide) (by decide) (by decide) rfl).1

/-! ### Row-identity tracking lemmas for the replay invariants -/

theorem find?_append_left {α : Type} (l l' : List α) (p : α → Bool) (x : α)
    (h : l.find? p = some x) : (l ++ l').find? p = some x := by
  induction l with
  | nil => simp [List.find?] at h
  | cons a t ih =>
    rw [List.cons_append]
    cases hpa : p a with
    | true => rw [List.find?_cons_of_pos _ hpa] at h ⊢; exact h
    | false => rw [List.find?_cons_of_neg _ (by simp [hpa])] at h ⊢; exact ih h

theorem find?_rowid_map (rows : List Row) (g : Row → Row)
    (hg : ∀ r, (g r).rowid = r.rowid) (R : Nat) :
    ((rows.map g).find? fun r => r.rowid = R) =
      (rows.find? fun r => r.rowid = R).map g := by
  induction rows with
  | nil => rfl
  | cons a t ih =>
    rw [List.map_cons]
    by_cases hra : a.rowid = R
    · rw [List.find?_cons_of_pos _ (by simp [hg a, hra]),
         List.find?_cons_of_pos _ (by simp [hra])]
      rfl
    · rw [List.find?_cons_of_neg _ (by simp [hg a, hra]),
         List.find?_cons_of_neg _ (by simp [hra])]
      exact ih

theorem findRow_eq_of_mem (db : Db) (r : Row) (hwf : db.WF) (hmem : r ∈ db.rows) :
    db.findRow r.rowid = some r.entry := by
  unfold Db.findRow
  cases hf : db.rows.find? fun x => x.rowid = r.rowid with
  | none =>
    rw [List.find?_eq_none] at hf
    exact absurd (by simp) (hf r hmem)
  | some x =>
    have hxmem := List.mem_of_find?_eq_some hf
    have hxp := List.find?_some hf
    simp only [decide_eq_true_eq] at hxp
    have hxr : x = r := List.inj_on_of_nodup_map hwf.1 hxmem hmem hxp
    rw [hxr]
    rfl

theorem findRow_lt_next (db : Db) (R : Nat) (e : Entry) (hwf : db.WF)
    (h : db.findRow R = some e) : R < db.nextRowid := by
  unfold Db.findRow at h
  cases hf : db.rows.find? fun x => x.rowid = R with
  | none => rw [hf] at h; cases h
  | some x =>
    have hmem := List.mem_of_find?_eq_some hf
    have hp := List.find?_some hf
    simp only [decide_eq_true_eq] at hp
    rw [← hp]
    exact hwf.2 x hmem

theorem findRow_insert (db : Db) (en : Entry) (R : Nat) (e0 : Entry)
    (h : db.findRow R = some e0) : (db.insert en).findRow R = some e0 := by
  unfold Db.findRow at h ⊢
  unfold Db.insert
  cases hf : db.rows.find? fun x => x.rowid = R with
  | none => rw [hf] at h; cases h
  | some x =>
    rw [hf] at h
    rw [find?_append_left _ _ _ x hf]
    exact h

theorem findRow_insert_none (db : Db) (en : Entry) (R : Nat)
    (hR : R < db.nextRowid) (h : db.findRow R = none) :
    (db.insert en).findRow R = none := by
  unfold Db.findRow at h ⊢
  unfold Db.insert
  cases hf : db.rows.find? fun x => x.rowid = R with
  | some x => rw [hf] at h; cases h
  | none =>
    rw [List.find?_eq_none] at hf
    have : ((db.rows ++ [(⟨db.nextRowid, en⟩ : Row)]).find? fun x => x.rowid = R) = none := by
      rw [List.find?_eq_none]
      intro x hx
      rcases List.mem_append.mp hx with hx | hx
      · exact hf x hx
      · simp only [List.mem_singleton] at hx
        subst hx
        simp only [decide_eq_true_eq]
        omega
    rw [this]
    rfl

theorem findRow_deleteRow_some (db : Db) (rid R : Nat) (e' : Entry) (hwf : db.WF)
    (h : (db.deleteRow rid).findRow R = some e') : db.findRow R = some e' := by
  unfold Db.findRow Db.deleteRow at h
  cases hf : ((db.rows.filter fun r => r.rowid ≠ rid).find? fun x => x.rowid = R) with
  | none => rw [hf] at h; cases h
  | some x =>
    rw [hf] at h
    have hmemf := List.mem_of_find?_eq_some hf
    have hp := List.find?_some hf
    have hmem := List.mem_of_mem_filter hmemf
    simp only [decide_eq_true_eq] at hp
    have hfr := findRow_eq_of_mem db x hwf hmem
    rw [hp] at hfr
    rw [hfr]
    exact h

theorem findRow_deleteRow_none (db : Db) (rid R : Nat) (h : db.findRow R = none) :
    (db.deleteRow rid).findRow R = none := by
  unfold Db.findRow at h
  unfold Db.findRow Db.deleteRow
  cases hf : db.rows.find? fun x => x.rowid = R with
  | some x => rw [hf] at h; cases h
  | none =>
    rw [List.find?_eq_none] at hf
    have : ((db.rows.filter fun r => r.rowid ≠ rid).find? fun x => x.rowid = R) = none := by
      rw [List.find?_eq_none]
      intro x hx
      exact hf x (List.mem_of_mem_filter hx)
    rw [this]
    rfl

theorem findRow_updateRow (db : Db) (rid : Nat) (en : Entry) (R : Nat) :
    (db.updateRow rid en).findRow R =
      (db.rows.find? fun r => r.rowid = R).map
        fun r => if r.rowid = rid then en else r.entry := by
  unfold Db.findRow Db.updateRow
  rw [find?_rowid_map _ _ (fun r => by by_cases h : r.rowid = rid <;> simp [h]) R]
  cases db.rows.find? fun r => r.rowid = R with
  | none => rfl
  | some x => by_cases h : x.rowid = rid <;> simp [h]

theorem findRow_setLocalVersion (db : Db) (rid n R : Nat) :
    (db.setLocalVersion rid n).findRow R =
      (db.rows.find? fun r => r.rowid = R).map
        fun r => if r.rowid = rid then { r.entry with local_version := n } else r.entry := by
  unfold Db.findRow Db.setLocalVersion
  rw [find?_rowid_map _ _ (fun r => by by_cases h : r.rowid = rid <;> simp [h]) R]
  cases db.rows.find? fun r => r.rowid = R with
  | none => rfl
  | some x => by_cases h : x.rowid = rid <;> simp [h]

theorem WF_insert (db : Db) (en : Entry) (hwf : db.WF) : (db.insert en).WF := by
  obtain ⟨hnd, hb⟩ := hwf
  constructor
  · show ((db.rows ++ [(⟨db.nextRowid, en⟩ : Row)]).map Row.rowid).Nodup
    rw [List.map_append, List.nodup_append]
    refine ⟨hnd, List.nodup_singleton _, ?_⟩
    intro a ha
    rcases List.mem_map.mp ha with ⟨x, hx, rfl⟩
    simp only [List.map_cons, List.map_nil, List.mem_singleton]
    have := hb x hx
    omega
  · intro r hr
    rcases List.mem_append.mp hr with h | h
    · have := hb r h
      show r.rowid < db.nextRowid + 1
      omega
    · simp only [List.mem_singleton] at h
      subst h
      show db.nextRowid < db.nextRowid + 1
      omega

theorem WF_deleteRow (db : Db) (rid : Nat) (hwf : db.WF) : (db.deleteRow rid).WF := by
  obtain ⟨hnd, hb⟩ := hwf
  refine ⟨?_, ?_⟩
  · exact ((List.filter_sublist _).map Row.rowid).nodup hnd
  · intro r hr
    exact hb r (List.mem_of_mem_filter hr)

theorem WF_mapRows (db : Db) (g : Row → Row) (hg : ∀ r, (g r).rowid = r.rowid)
    (hwf : db.WF) : Db.WF ⟨db.rows.map g, db.nextRowid⟩ := by
  obtain ⟨hnd, hb⟩ := hwf
  constructor
  · show ((db.rows.map g).map Row.rowid).Nodup
    rw [List.map_map]
    have hfun : (Row.rowid ∘ g) = Row.rowid := funext fun r => hg r
    rw [hfun]
    exact hnd
  · intro r hr
    rcases List.mem_map.mp hr with ⟨x, hx, rfl⟩
    show (g x).rowid < db.nextRowid
    rw [hg x]
    exact hb x hx

theorem WF_updateRow (db : Db) (rid : Nat) (en : Entry) (hwf : db.WF) :
    (db.updateRow rid en).WF :=
  WF_mapRows db _ (fun r => by by_cases h : r.rowid = rid <;> simp [h]) hwf

theorem WF_setLocalVersion (db : Db) (rid n : Nat) (hwf : db.WF) :
    (db.setLocalVersion rid n).WF :=
  WF_mapRows db _ (fun r => by by_cases h : r.rowid = rid <;> simp [h]) hwf

theorem db_effect_track (db db' : Db) (hwf : db.WF)
    (heff : db' = db ∨ (∃ rid, db' = db.deleteRow rid) ∨ (∃ en, db' = db.insert en) ∨
      (∃ r en, r ∈ db.rows ∧ db' = db.updateRow r.rowid en ∧
        en.start_timestamp = r.entry.start_timestamp ∧
        en.local_version = r.entry.local_version ∧ r.entry.timestamp ≤ en.timestamp)) :
    db'.WF ∧ db.nextRowid ≤ db'.nextRowid ∧
    (∀ R, R < db.nextRowid → db.findRow R = none → db'.findRow R = none) ∧
    (∀ R e e', db.findRow R = some e → db'.findRow R = some e' →
      e'.start_timestamp = e.start_timestamp ∧ e'.local_version = e.local_version ∧
      e.timestamp ≤ e'.timestamp) := by
  rcases heff with rfl | ⟨rid, rfl⟩ | ⟨en, rfl⟩ | ⟨r, en, hmem, rfl, hst, hlv, hts⟩
  · refine ⟨hwf, le_refl _, fun R _ h => h, fun R e e' h1 h2 => ?_⟩
    rw [h1] at h2
    injection h2 with h2
    subst h2
    exact ⟨rfl, rfl, le_refl _⟩
  · refine ⟨WF_deleteRow db rid hwf, le_refl _, fun R _ h => findRow_deleteRow_none db rid R h,
      fun R e e' h1 h2 => ?_⟩
    have h2' := findRow_deleteRow_some db rid R e' hwf h2
    rw [h1] at h2'
    injection h2' with h2'
    subst h2'
    exact ⟨rfl, rfl, le_refl _⟩
  · refine ⟨WF_insert db en hwf, Nat.le_succ _, fun R hR h => findRow_insert_none db en R hR h,
      fun R e e' h1 h2 => ?_⟩
    have h2' := findRow_insert db en R e h1
    rw [h2'] at h2
    injection h2 with h2
    subst h2
    exact ⟨rfl, rfl, le_refl _⟩
  · refine ⟨WF_updateRow db r.rowid en hwf, le_refl _, ?_, ?_⟩
    · intro R hR h
      unfold Db.findRow at h
      rw [findRow_updateRow]
      cases hf : db.rows.find? fun x => x.rowid = R with
      | none => rfl
      | some x => rw [hf] at h; cases h
    · intro R e e' h1 h2
      rw [findRow_updateRow] at h2
      unfold Db.findRow at h1
      cases hf : db.rows.find? fun x => x.rowid = R with
      | none => rw [hf] at h1; cases h1
      | some x =>
        rw [hf] at h1 h2
        injection h1 with h1
        simp only [Option.map_some'] at h2
        injection h2 with h2
        by_cases hxr : x.rowid = r.rowid
        · rw [if_pos hxr] at h2
          have hxe : x.entry = r.entry := by
            have hx1 := findRow_eq_of_mem db r hwf hmem
            have hx2 := findRow_eq_of_mem db x hwf (List.mem_of_find?_eq_some hf)
            rw [hxr] at hx2
            rw [hx1] at hx2
            injection hx2 with hx2
            exact hx2.symm
          subst h1
          subst h2
          rw [hxe]
          exact ⟨hst, hlv, hts⟩
        · rw [if_neg hxr] at h2
          subst h1
          subst h2
          exact ⟨rfl, rfl, le_refl _⟩

theorem pp_track (db : Db) (p : Payload) (hwf : db.WF) :
    (process_payload db p).1.WF ∧
    db.nextRowid ≤ (process_payload db p).1.nextRowid ∧
    (∀ R, R < db.nextRowid → db.findRow R = none → (process_payload db p).1.findRow R = none) ∧
    (∀ R e e', db.findRow R = some e → (process_payload db p).1.findRow R = some e' →
      e'.start_timestamp = e.start_timestamp ∧ e'.local_version = e.local_version ∧
      e.timestamp ≤ e'.timestamp) := by
  refine db_effect_track db (process_payload db p).1 hwf ?_
  cases hex : db.existsSig p.signature with
  | true =>
    rw [pp_existsSig db p hex]
    exact Or.inl rfl
  | false =>
    by_cases htype : p.metadata_type = MetadataType.DELETED
    · cases hdel : db.getBySigPk p.delete_signature p.public_key with
      | none =>
        rw [pp_deleted_none db p hex htype hdel]
        exact Or.inl rfl
      | some r =>
        rw [pp_deleted_found db p r hex htype hdel]
        exact Or.inr (Or.inl ⟨r.rowid, rfl⟩)
    · cases hgate : gatedByChannelVersion db p with
      | true =>
        rw [pp_gated db p hex htype hgate]
        exact Or.inl rfl
      | false =>
        rw [pp_ungated db p hex htype hgate]
        cases hkind : p.metadata_type with
        | DELETED => exact absurd hkind htype
        | REGULAR_TORRENT =>
          rw [kd_torrent db p hkind]
          exact Or.inr (Or.inr (Or.inl ⟨TorrentMetadata_from_payload p, rfl⟩))
        | OTHER =>
          rw [kd_other db p (by simp [hkind]) (by simp [hkind])]
          exact Or.inl rfl
        | CHANNEL_TORRENT =>
          rw [kd_channel db p hkind]
          cases hch : db.get_channel_with_id p.public_key with
          | none =>
            rw [uci_none db p hch]
            exact Or.inr (Or.inr (Or.inl ⟨ChannelMetadata_from_payload p, rfl⟩))
          | some channel =>
            rcases Nat.lt_trichotomy channel.entry.timestamp p.timestamp with hlt | heq | hgt
            · rw [uci_some_newer db p channel hch hlt]
              refine Or.inr (Or.inr (Or.inr ⟨channel, applyChannelPayload channel.entry p,
                (get_channel_with_id_spec db p.public_key channel hch).1, rfl, rfl, rfl, ?_⟩))
              exact le_of_lt hlt
            · rw [uci_some_same db p channel hch heq.symm]
              exact Or.inl rfl
            · rw [uci_some_older db p channel hch hgt]
              exact Or.inl rfl

theorem squashed_track (blob : List BlobRecord) (db : Db) (hwf : db.WF) :
    (process_squashed_mdblob db blob).1.WF ∧
    db.nextRowid ≤ (process_squashed_mdblob db blob).1.nextRowid ∧
    (∀ R, R < db.nextRowid → db.findRow R = none →
      (process_squashed_mdblob db blob).1.findRow R = none) ∧
    (∀ R e e', db.findRow R = some e →
      (process_squashed_mdblob db blob).1.findRow R = some e' →
      e'.start_timestamp = e.start_timestamp ∧ e'.local_version = e.local_version ∧
      e.timestamp ≤ e'.timestamp) := by
  induction blob generalizing db with
  | nil =>
    refine ⟨hwf, le_refl _, fun R _ h => h, fun R e e' h1 h2 => ?_⟩
    have h2' : db.findRow R = some e' := h2
    rw [h1] at h2'
    injection h2' with h2'
    subst h2'
    exact ⟨rfl, rfl, le_refl _⟩
  | cons b rest ih =>
    cases b with
    | badSig =>
      refine ⟨hwf, le_refl _, fun R _ h => h, fun R e e' h1 h2 => ?_⟩
      have h2' : db.findRow R = some e' := h2
      rw [h1] at h2'
      injection h2' with h2'
      subst h2'
      exact ⟨rfl, rfl, le_refl _⟩
    | record p =>
      obtain ⟨hwf1, hn1, hnone1, hq1⟩ := pp_track db p hwf
      obtain ⟨hwf2, hn2, hnone2, hq2⟩ := ih (process_payload db p).1 hwf1
      show (process_squashed_mdblob (process_payload db p).1 rest).1.WF ∧ _ ∧ _ ∧ _
      refine ⟨hwf2, le_trans hn1 hn2, ?_, ?_⟩
      · intro R hR h
        exact hnone2 R (lt_of_lt_of_le hR hn1) (hnone1 R hR h)
      · intro R e e' h1 h2
        have h2' : (process_squashed_mdblob (process_payload db p).1 rest).1.findRow R =
            some e' := h2
        cases hmid : (process_payload db p).1.findRow R with
        | none =>
          have hR := findRow_lt_next db R e hwf h1
          have hfin := hnone2 R (lt_of_lt_of_le hR hn1) hmid
          rw [hfin] at h2'
          cases h2'
        | some em =>
          obtain ⟨hs1, hl1, ht1⟩ := hq1 R e em h1 hmid
          obtain ⟨hs2, hl2, ht2⟩ := hq2 R em e' hmid h2'
          exact ⟨hs2.trans hs1, hl2.trans hl1, le_trans ht1 ht2⟩

theorem track_id (db : Db) (hwf : db.WF) :
    db.WF ∧ db.nextRowid ≤ db.nextRowid ∧
    (∀ R, R < db.nextRowid → db.findRow R = none → db.findRow R = none) ∧
    (∀ R e e', db.findRow R = some e → db.findRow R = some e' →
      e'.start_timestamp = e.start_timestamp ∧ e.local_version ≤ e'.local_version ∧
      e.timestamp ≤ e'.timestamp ∧
      (e'.local_version = e.local_version ∨ e'.local_version ≤ e'.timestamp)) := by
  refine ⟨hwf, le_refl _, fun R _ h => h, fun R e e' h1 h2 => ?_⟩
  rw [h1] at h2
  injection h2 with h2
  subst h2
  exact ⟨rfl, le_refl _, le_refl _, Or.inl rfl⟩

theorem step_track (contents : String → List BlobRecord) (cid : String) (db db' : Db)
    (f : String) (hwf : db.WF) (hok : processFileStep contents cid db f = Except.ok db') :
    db'.WF ∧ db.nextRowid ≤ db'.nextRowid ∧
    (∀ R, R < db.nextRowid → db.findRow R = none → db'.findRow R = none) ∧
    (∀ R e e', db.findRow R = some e → db'.findRow R = some e' →
      e'.start_timestamp = e.start_timestamp ∧ e.local_version ≤ e'.local_version ∧
      e.timestamp ≤ e'.timestamp ∧
      (e'.local_version = e.local_version ∨ e'.local_version ≤ e'.timestamp)) := by
  unfold processFileStep at hok
  cases hparse : blobSeqNumber f with
  | notBlob =>
    simp only [hparse, Except.ok.injEq] at hok
    subst hok
    exact track_id db hwf
  | badInt =>
    simp only [hparse] at hok
    exact absurd hok (by simp)
  | seq n =>
    simp only [hparse] at hok
    cases hch : db.get_channel_with_id cid with
    | none =>
      simp only [hch] at hok
      exact absurd hok (by simp)
    | some channel =>
      simp only [hch] at hok
      by_cases hgate : (n ≤ channel.entry.start_timestamp ∨ n ≤ channel.entry.local_version ∨
          n > channel.entry.timestamp)
      · rw [if_pos hgate] at hok
        injection hok with hok
        subst hok
        exact track_id db hwf
      · rw [if_neg hgate] at hok
        push_neg at hgate
        obtain ⟨hg1, hg2, hg3⟩ := hgate
        obtain ⟨hwf2, hn2, hnone2, hq2⟩ := squashed_track (contents f) db hwf
        cases hsq : (process_squashed_mdblob db (contents f)).2 with
        | true =>
          rw [hsq, if_pos rfl] at hok
          injection hok with hok
          subst hok
          refine ⟨hwf2, hn2, hnone2, fun R e e' h1 h2 => ?_⟩
          obtain ⟨hs, hl, ht⟩ := hq2 R e e' h1 h2
          exact ⟨hs, le_of_eq hl.symm, ht, Or.inl hl⟩
        | false =>
          rw [hsq, if_neg (by simp)] at hok
          cases hrow : (process_squashed_mdblob db (contents f)).1.hasRowid channel.rowid with
          | false =>
            rw [hrow, if_neg (by simp)] at hok
            exact absurd hok (by simp)
          | true =>
            rw [hrow, if_pos rfl] at hok
            injection hok with hok
            subst hok
            refine ⟨WF_setLocalVersion _ _ _ hwf2, hn2, ?_, ?_⟩
            · intro R hR h
              have hmid := hnone2 R hR h
              rw [findRow_setLocalVersion]
              unfold Db.findRow at hmid
              cases hf : (process_squashed_mdblob db (contents f)).1.rows.find?
                  fun x => x.rowid = R with
              | none => rfl
              | some x => rw [hf] at hmid; cases hmid
            · intro R e e' h1 h2
              rw [findRow_setLocalVersion] at h2
              cases hf : (process_squashed_mdblob db (contents f)).1.rows.find?
                  fun x => x.rowid = R with
              | none => rw [hf] at h2; cases h2
              | some x =>
                rw [hf] at h2
                simp only [Option.map_some'] at h2
                injection h2 with h2
                have hxR : x.rowid = R := by
                  have := List.find?_some hf
                  simpa using this
                have hmid : (process_squashed_mdblob db (contents f)).1.findRow R =
                    some x.entry := by
                  unfold Db.findRow
                  rw [hf]
                  rfl
                obtain ⟨hs, hl, ht⟩ := hq2 R e x.entry h1 hmid
                by_cases hxr : x.rowid = channel.rowid
                · rw [if_pos hxr] at h2
                  have hRc : R = channel.rowid := by rw [← hxR, hxr]
                  have hcmem := (get_channel_with_id_spec db cid channel hch).1
                  have hcfr := findRow_eq_of_mem db channel hwf hcmem
                  rw [← hRc] at hcfr
                  rw [h1] at hcfr
                  injection hcfr with hcfr
                  subst h2
                  refine ⟨hs, ?_, ht, Or.inr ?_⟩
                  · show e.local_version ≤ n
                    rw [hcfr]
                    omega
                  · show n ≤ x.entry.timestamp
                    have hets : channel.entry.timestamp ≤ x.entry.timestamp := by
                      rw [hcfr] at ht
                      exact ht
                    omega
                · rw [if_neg hxr] at h2
                  subst h2
                  exact ⟨hs, le_of_eq hl.symm, ht, Or.inl hl⟩

theorem go_track (contents : String → List BlobRecord) (cid : String) (fs : List String)
    (db : Db) (hwf : db.WF) :
    (process_channel_dir_go contents cid fs db).1.WF ∧
    db.nextRowid ≤ (process_channel_dir_go contents cid fs db).1.nextRowid ∧
    (∀ R, R < db.nextRowid → db.findRow R = none →
      (process_channel_dir_go contents cid fs db).1.findRow R = none) ∧
    (∀ R e e', db.findRow R = some e →
      (process_channel_dir_go contents cid fs db).1.findRow R = some e' →
      e'.start_timestamp = e.start_timestamp ∧ e.local_version ≤ e'.local_version ∧
      e.timestamp ≤ e'.timestamp ∧
      (e'.local_version = e.local_version ∨ e'.local_version ≤ e'.timestamp)) := by
  induction fs generalizing db with
  | nil => exact track_id db hwf
  | cons f rest ih =>
    cases hstep : processFileStep contents cid db f with
    | error err =>
      have hgo : process_channel_dir_go contents cid (f :: rest) db = (db, some err) := by
        rw [go_cons, hstep]
      rw [hgo]
      exact track_id db hwf
    | ok db1 =>
      have hgo : process_channel_dir_go contents cid (f :: rest) db =
          process_channel_dir_go contents cid rest db1 := by
        rw [go_cons, hstep]
      rw [hgo]
      obtain ⟨hwf1, hn1, hnone1, hq1⟩ := step_track contents cid db db1 f hwf hstep
      obtain ⟨hwf2, hn2, hnone2, hq2⟩ := ih db1 hwf1
      refine ⟨hwf2, le_trans hn1 hn2, ?_, ?_⟩
      · intro R hR h
        exact hnone2 R (lt_of_lt_of_le hR hn1) (hnone1 R hR h)
      · intro R e e' h1 h2
        cases hmid : db1.findRow R with
        | none =>
          have hR := findRow_lt_next db R e hwf h1
          have hfin := hnone2 R (lt_of_lt_of_le hR hn1) hmid
          rw [hfin] at h2
          cases h2
        | some em =>
          obtain ⟨hs1, hl1, ht1, hd1⟩ := hq1 R e em h1 hmid
          obtain ⟨hs2, hl2, ht2, hd2⟩ := hq2 R em e' hmid h2
          refine ⟨hs2.trans hs1, le_trans hl1 hl2, le_trans ht1 ht2, ?_⟩
          rcases hd2 with hd2 | hd2
          · rcases hd1 with hd1 | hd1
            · exact Or.inl (by omega)
            · exact Or.inr (by omega)
          · exact Or.inr hd2

/-! ### C8: monotonicity and the versioning window across a replay -/

/-- C8 as frozen is refuted by the preview state the spec itself defines: a
channel created with `start_timestamp = 100` and `local_version = 0` (the
spec's own end-to-end scenario) still has `local_version < start_timestamp`
after a replay step, so the window invariant does not hold after every
replay step. -/
theorem C8_counterexample :
    (process_channel_dir (fun _ => []) [] "k"
        ⟨[⟨0, ⟨MetadataType.CHANNEL_TORRENT, "k", 1, 0, 150, "cs", "c", 100, 0⟩⟩], 1⟩).1.findRow
        0 =
      some ⟨MetadataType.CHANNEL_TORRENT, "k", 1, 0, 150, "cs", "c", 100, 0⟩ ∧
    ¬((100 : Nat) ≤ 0) := ⟨by decide, by decide⟩

/-- C8 (amended): across any replay call, every surviving row keeps its
`start_timestamp`, never decreases its `local_version` or its `timestamp`
(so in particular the replayed channel's cursor is non-decreasing), and if
the window invariant `start_timestamp ≤ local_version ≤ timestamp` held for
a row before the call, it holds for that row after it.  (A row created in
preview state during the call starts outside the window, as the spec's
preview state prescribes, until its first cursor advance.) -/
theorem C8_replay_monotone_window (contents : String → List BlobRecord)
    (listing : List String) (cid : String) (db : Db) (hwf : db.WF) :
    (process_channel_dir contents listing cid db).1.WF ∧
    ∀ R e e', db.findRow R = some e →
      (process_channel_dir contents listing cid db).1.findRow R = some e' →
      e'.start_timestamp = e.start_timestamp ∧
      e.local_version ≤ e'.local_version ∧
      e.timestamp ≤ e'.timestamp ∧
      (e.start_timestamp ≤ e.local_version ∧ e.local_version ≤ e.timestamp →
        e'.start_timestamp ≤ e'.local_version ∧ e'.local_version ≤ e'.timestamp) := by
  unfold process_channel_dir
  cases hch : db.get_channel_with_id cid with
  | none =>
    refine ⟨hwf, fun R e e' h1 h2 => ?_⟩
    have h2' : db.findRow R = some e' := h2
    rw [h1] at h2'
    injection h2' with h2'
    subst h2'
    exact ⟨rfl, le_refl _, le_refl _, fun h => h⟩
  | some c =>
    obtain ⟨hwf', hn, hnone, hq⟩ := go_track contents cid (pySorted listing) db hwf
    refine ⟨hwf', fun R e e' h1 h2 => ?_⟩
    obtain ⟨hs, hl, ht, hd⟩ := hq R e e' h1 h2
    refine ⟨hs, hl, ht, fun hinv => ?_⟩
    rcases hd with hd | hd
    · constructor <;> omega
    · constructor <;> omega

/-- Witness for C8 (amended): replaying `120.mdblob` over a channel with
window `(100, 110, 150)` advances the cursor to 120 and keeps the window
invariant. -/
theorem C8_witness :
    (process_channel_dir (fun _ => []) ["120.mdblob"] "k"
        ⟨[⟨0, ⟨MetadataType.CHANNEL_TORRENT, "k", 1, 0, 150, "cs", "c", 100, 110⟩⟩], 1⟩).1.WF ∧
    ((110 : Nat) ≤ 120 ∧ (100 : Nat) ≤ 120 ∧ (120 : Nat) ≤ 150) := by
  obtain ⟨hwf', hq⟩ := C8_replay_monotone_window (fun _ => []) ["120.mdblob"] "k"
    ⟨[⟨0, ⟨MetadataType.CHANNEL_TORRENT, "k", 1, 0, 150, "cs", "c", 100, 110⟩⟩], 1⟩ (by decide)
  obtain ⟨hs, hl, ht, hinv⟩ := hq 0
    ⟨MetadataType.CHANNEL_TORRENT, "k", 1, 0, 150, "cs", "c", 100, 110⟩
    ⟨MetadataType.CHANNEL_TORRENT, "k", 1, 0, 150, "cs", "c", 100, 120⟩
    (by decide) (by decide)
  exact ⟨hwf', hl, (hinv (by decide)).1, (hinv (by decide)).2⟩
